import Mathlib

/-!
Verification of the windowed convolution/pooling engine of a small
neural-network layer library.  The Lean definitions below are shallow
embeddings of the Python source: integers become `ℤ`/`ℕ`, Python's true
(float) division followed by `int(...)`/`math.ceil(...)` becomes exact
rational division followed by truncation/ceiling (exact for the integer
magnitudes in scope), tensors become shape data together with total
value functions over `ℚ`, and a statement that raises becomes an
`Except`/structured-error result.
-/

namespace DNN

/-! ## Shape/padding arithmetic (`conv_utils.compute_conv_padding`,
`conv_utils.compute_conv_output_dim`) -/

/-- Truncation toward zero of a rational, the semantics of Python's
`int(...)` applied to a float. -/
def qtrunc (q : ℚ) : ℤ :=
  if q < 0 then ⌈q⌉ else ⌊q⌋

/-- Embedding of `compute_conv_output_dim(n, f, p, s)`:
`int((n - f + 2 * p) / s + 1)` with `/` Python true division. -/
def compute_conv_output_dim (n f p s : ℤ) : ℤ :=
  qtrunc (((n : ℚ) - f + 2 * p) / (s : ℚ) + 1)

/-- Embedding of `compute_conv_padding(kernel_size, mode)`: for mode
`"same"` it returns `(ceil((kH - 1)/2), ceil((kW - 1)/2))`; for every
other mode string it returns `(0, 0)` — the source raises nothing. -/
def compute_conv_padding (kH kW : ℤ) (mode : String) : ℤ × ℤ :=
  if mode = "same" then (⌈((kH : ℚ) - 1) / 2⌉, ⌈((kW : ℚ) - 1) / 2⌉)
  else (0, 0)

theorem qtrunc_intCast (z : ℤ) : qtrunc (z : ℚ) = z := by
  unfold qtrunc
  split <;> simp

theorem qtrunc_eq_floor (q : ℚ) (h : 0 ≤ q) : qtrunc q = ⌊q⌋ := by
  unfold qtrunc
  split
  · rename_i hlt
    exact absurd h (not_le.mpr hlt)
  · rfl

/-- C5: `compute_conv_output_dim` implements the truncating-division
formula `floor((n - f + 2p) / s) + 1` whenever the padded input is at
least as large as the kernel and the stride is positive. -/
theorem compute_conv_output_dim_eq_floor_formula
    (n f p s : ℤ) (hn : 0 < n) (hf : 0 < f) (hs : 0 < s) (hp : 0 ≤ p)
    (hfit : f ≤ n + 2 * p) :
    compute_conv_output_dim n f p s = ⌊((n : ℚ) - f + 2 * p) / (s : ℚ)⌋ + 1 := by
  unfold compute_conv_output_dim
  have hnum : (0 : ℚ) ≤ (n : ℚ) - f + 2 * p := by
    have : (f : ℚ) ≤ (n : ℚ) + 2 * p := by exact_mod_cast hfit
    linarith
  have hden : (0 : ℚ) < (s : ℚ) := by exact_mod_cast hs
  have hq : (0 : ℚ) ≤ ((n : ℚ) - f + 2 * p) / (s : ℚ) := div_nonneg hnum hden.le
  rw [qtrunc_eq_floor _ (by linarith)]
  rw [Int.floor_add_one]

/-- Witness for C5 at `(n, f, p, s) = (5, 3, 0, 2)`. -/
theorem compute_conv_output_dim_eq_floor_formula_witness :
    compute_conv_output_dim 5 3 0 2 = ⌊((5 : ℚ) - 3 + 2 * 0) / (2 : ℚ)⌋ + 1 :=
  compute_conv_output_dim_eq_floor_formula 5 3 0 2 (by norm_num) (by norm_num)
    (by norm_num) (by norm_num) (by norm_num)

/-- C3 (amended): composing `compute_conv_padding` in `"same"` mode with
`compute_conv_output_dim` at stride 1 returns exactly the input size for
every **odd** kernel size `k ≥ 1` and every input size `n ≥ k`.  (For
even `k` the result is `n + 1`; see the counterexample.) -/
theorem same_padding_stride1_preserves_size_odd
    (k n : ℤ) (hodd : k % 2 = 1) (hk : 0 < k) (hn : k ≤ n) :
    compute_conv_output_dim n k (compute_conv_padding k k "same").1 1 = n := by
  obtain ⟨t, ht⟩ : ∃ t : ℤ, k = 2 * t + 1 := ⟨k / 2, by omega⟩
  have hpad : (compute_conv_padding k k "same").1 = t := by
    unfold compute_conv_padding
    rw [if_pos rfl]
    show ⌈((k : ℚ) - 1) / 2⌉ = t
    have hq : ((k : ℚ) - 1) / 2 = (t : ℚ) := by
      subst ht; push_cast; ring
    rw [hq, Int.ceil_intCast]
  rw [hpad]
  unfold compute_conv_output_dim
  have hq2 : ((n : ℚ) - (k : ℚ) + 2 * (t : ℚ)) / ((1 : ℤ) : ℚ) + 1 = ((n : ℚ)) := by
    subst ht; push_cast; ring
  rw [hq2, qtrunc_intCast]

/-- Witness for C3 at `k = 3`, `n = 5`. -/
theorem same_padding_stride1_preserves_size_odd_witness :
    compute_conv_output_dim 5 3 (compute_conv_padding 3 3 "same").1 1 = 5 :=
  same_padding_stride1_preserves_size_odd 3 5 (by decide) (by decide) (by decide)

/-- C3 counterexample: for the even kernel size `k = 2` and input size
`n = 2 ≥ k`, `"same"` padding at stride 1 yields output size 3, not 2 —
the claimed input/output equality fails. -/
theorem same_padding_stride1_size_counterexample :
    compute_conv_output_dim 2 2 (compute_conv_padding 2 2 "same").1 1 = 3 ∧
      (3 : ℤ) ≠ 2 := by
  constructor
  · have hp : (compute_conv_padding 2 2 "same").1 = 1 := by
      unfold compute_conv_padding
      rw [if_pos rfl]
      show ⌈(((2 : ℤ) : ℚ) - 1) / 2⌉ = 1
      rw [Int.ceil_eq_iff]
      constructor <;> norm_num
    rw [hp]
    unfold compute_conv_output_dim
    have hq : (((2 : ℤ) : ℚ) - ((2 : ℤ) : ℚ) + 2 * ((1 : ℤ) : ℚ)) / ((1 : ℤ) : ℚ) + 1
        = ((3 : ℤ) : ℚ) := by
      push_cast
      norm_num
    rw [hq, qtrunc_intCast]
  · decide

/-- C9 (amended): every padding-mode string other than `"same"` —
including strings that are not a valid mode at all — is silently treated
as `"valid"`: `compute_conv_padding` returns `(0, 0)` and no error of
any kind is raised at construction/build time. -/
theorem compute_conv_padding_unknown_mode_silent
    (kH kW : ℤ) (mode : String) (h : mode ≠ "same") :
    compute_conv_padding kH kW mode = (0, 0) := by
  unfold compute_conv_padding
  exact if_neg h

/-- Witness for C9 at the invalid mode string `"full"`. -/
theorem compute_conv_padding_unknown_mode_silent_witness :
    compute_conv_padding 3 3 "full" = (0, 0) :=
  compute_conv_padding_unknown_mode_silent 3 3 "full" (by decide)

/-- C9 counterexample: the invalid padding mode `"reflect"` is *not*
rejected: `compute_conv_padding` (the only place a padding mode is
inspected — `Conv.__init__` and the pooling constructors merely forward
the string to it) returns the value `(0, 0)` normally, so no
`ConfigurationError` is raised at construction/build time. -/
theorem compute_conv_padding_invalid_mode_no_error :
    compute_conv_padding 3 3 "reflect" = (0, 0) := by
  decide

/-! ## Window indexer (`conv_utils.slice_idx_generator`) and gradient
scatter-accumulator (`conv_utils.accumulate_dX_conv`) -/

/-- Embedding of `slice_idx_generator(oH, oW, sH, sW)`: the row-major
list of window origins `(i * sH, j * sW)` for `i < oH`, `j < oW`. -/
def slice_idx_generator (oH oW sH sW : ℕ) : List (ℕ × ℕ) :=
  (List.range oH).flatMap fun i => (List.range oW).map fun j => (i * sH, j * sW)

/-- A tensor viewed along its two trailing spatial axes; every leading
axis (batch, channel, ...) is abstracted into the index type `ι`.  The
Python code addresses exactly these two axes with `dX[..., r, c]`. -/
structure SpatialT (ι : Type) where
  rows : ℕ
  cols : ℕ
  val : ι → ℕ → ℕ → ℚ

/-- One iteration of the accumulation loop of `accumulate_dX_conv`:
`dX[..., r0:r0+kH, c0:c0+kW] += contrib`, an additive region update. -/
def scatterAdd {ι : Type} (kH kW : ℕ) (contrib : ι → ℕ → ℕ → ℚ) (r0 c0 : ℕ)
    (g : ι → ℕ → ℕ → ℚ) : ι → ℕ → ℕ → ℚ :=
  fun l r c =>
    if r0 ≤ r ∧ r < r0 + kH ∧ c0 ≤ c ∧ c < c0 + kW then
      g l r c + contrib l (r - r0) (c - c0)
    else g l r c

/-- The accumulation phase of `accumulate_dX_conv`: a zero tensor of the
(padded) shape `rows × cols`, updated additively once per enumerated
window origin, origins regenerated by `slice_idx_generator`. -/
def accumulate_loop {ι : Type} (rows cols oH oW sH sW kH kW : ℕ)
    (dIp : ℕ → ι → ℕ → ℕ → ℚ) : SpatialT ι :=
  ⟨rows, cols,
    ((slice_idx_generator oH oW sH sW).enum).foldl
      (fun g p => scatterAdd kH kW (dIp p.1) p.2.1 p.2.2 g) (fun _ _ _ => 0)⟩

/-- Length of the Python slice `a[p:-p]` on an axis of length `n`.
For `p = 0` the stop index `-0` is `0`, so `a[0:-0] = a[0:0]` is empty;
for `p > 0` the slice keeps `n - 2p` entries (clamped at 0). -/
def pySymSliceLen (n p : ℕ) : ℕ :=
  if p = 0 then 0 else n - 2 * p

/-- The padding-strip step `dX = dX[..., pH:-pH, pW:-pW]` of
`accumulate_dX_conv`, with Python slice semantics. -/
def pyStrip {ι : Type} (t : SpatialT ι) (pH pW : ℕ) : SpatialT ι :=
  ⟨pySymSliceLen t.rows pH, pySymSliceLen t.cols pW,
   fun l r c => t.val l (pH + r) (pW + c)⟩

/-- Embedding of `accumulate_dX_conv(dX_shape, output_size, dIp, stride,
kernel_size, reshape, padding)`.  `rows × cols` is the spatial part of
`dX_shape`; `dIp idx l u v` is the per-window gradient contribution of
window `idx` at within-window offset `(u, v)` after the caller-supplied
`reshape` (the Python `dIp[:, idx, ...].reshape(*reshape)`); the final
`moveaxis` only permutes the abstracted leading axes and is not
modelled.  The strip step runs exactly when `padding != (0, 0)`. -/
def accumulate_dX_conv {ι : Type} (rows cols oH oW sH sW kH kW : ℕ)
    (dIp : ℕ → ι → ℕ → ℕ → ℚ) (pH pW : ℕ) : SpatialT ι :=
  let dX := accumulate_loop rows cols oH oW sH sW kH kW dIp
  if (pH, pW) ≠ (0, 0) then pyStrip dX pH pW else dX

/-- Window-coverage test: returns `true` iff the window with origin `p`
(extent `kH × kW`) covers the spatial position `(r, c)`. -/
def coversB (kH kW r c : ℕ) (p : ℕ × ℕ) : Bool :=
  decide (p.1 ≤ r ∧ r < p.1 + kH ∧ p.2 ≤ c ∧ c < p.2 + kW)

theorem foldl_scatterAdd_val {ι : Type} (kH kW : ℕ) (dIp : ℕ → ι → ℕ → ℕ → ℚ)
    (L : List (ℕ × (ℕ × ℕ))) (g : ι → ℕ → ℕ → ℚ) (l : ι) (r c : ℕ) :
    (L.foldl (fun g p => scatterAdd kH kW (dIp p.1) p.2.1 p.2.2 g) g) l r c
      = g l r c +
        ((L.filter (fun p => coversB kH kW r c p.2)).map
          (fun p => dIp p.1 l (r - p.2.1) (c - p.2.2))).sum := by
  induction L generalizing g with
  | nil => simp
  | cons a L ih =>
    simp only [List.foldl_cons]
    rw [ih]
    simp only [List.filter_cons]
    by_cases hcov : coversB kH kW r c a.2 = true
    · rw [if_pos hcov]
      simp only [List.map_cons, List.sum_cons]
      have hstep : scatterAdd kH kW (dIp a.1) a.2.1 a.2.2 g l r c
          = g l r c + dIp a.1 l (r - a.2.1) (c - a.2.2) := by
        unfold scatterAdd
        rw [if_pos (of_decide_eq_true hcov)]
      rw [hstep]
      ring
    · rw [if_neg hcov]
      have hstep : scatterAdd kH kW (dIp a.1) a.2.1 a.2.2 g l r c = g l r c := by
        unfold scatterAdd
        rw [if_neg (of_decide_eq_false (eq_false_of_ne_true hcov))]
      rw [hstep]

/-- C1: with the window origins regenerated by `slice_idx_generator`
from the same `(oH, oW, stride)` as the forward extraction, the value of
the scatter-accumulated (padded) input-gradient tensor at any leading
index `l` and spatial position `(r, c)` equals the sum of the per-window
gradient contributions of every window covering `(r, c)` — additive
accumulation, valid in particular for overlapping windows
(stride < kernel size).  The hypothesis states that every window fits
inside the `rows × cols` tensor, which is what the output-dimension
formula guarantees for the callers. -/
theorem accumulate_dX_conv_additive {ι : Type} (rows cols oH oW sH sW kH kW : ℕ)
    (dIp : ℕ → ι → ℕ → ℕ → ℚ) (l : ι) (r c : ℕ)
    (hfit : ∀ q ∈ slice_idx_generator oH oW sH sW,
      q.1 + kH ≤ rows ∧ q.2 + kW ≤ cols) :
    (accumulate_dX_conv rows cols oH oW sH sW kH kW dIp 0 0).val l r c
      = ((((slice_idx_generator oH oW sH sW).enum).filter
            (fun p => coversB kH kW r c p.2)).map
          (fun p => dIp p.1 l (r - p.2.1) (c - p.2.2))).sum := by
  unfold accumulate_dX_conv
  rw [if_neg (by simp)]
  unfold accumulate_loop
  dsimp only
  rw [foldl_scatterAdd_val]
  simp

/-- Per-window gradient contributions used by the C1 witness: window
`idx` contributes the constant `idx + 1` at every offset. -/
def witDIp : ℕ → ℕ → ℕ → ℕ → ℚ := fun idx _ _ _ => (idx : ℚ) + 1

/-- Witness for C1: two vertically adjacent stride-1 windows of height 2
over a 3×1 tensor overlap at row 1; the accumulated value there is the
sum of both windows' contributions. -/
theorem accumulate_dX_conv_additive_witness :
    (∀ q ∈ slice_idx_generator 2 1 1 1, q.1 + 2 ≤ 3 ∧ q.2 + 1 ≤ 1) ∧
    (accumulate_dX_conv 3 1 2 1 1 1 2 1 witDIp 0 0).val 0 1 0
      = ((((slice_idx_generator 2 1 1 1).enum).filter
            (fun p => coversB 2 1 1 0 p.2)).map
          (fun p => witDIp p.1 0 (1 - p.2.1) (0 - p.2.2))).sum :=
  ⟨by decide, accumulate_dX_conv_additive 3 1 2 1 1 1 2 1 witDIp 0 1 0 (by decide)⟩

/-- Per-window gradient contributions used by the C4 evaluation:
constant 1 everywhere. -/
def oneDIp : ℕ → ℕ → ℕ → ℕ → ℚ := fun _ _ _ _ => 1

/-- C4 (evaluation at the failing input): with `padding = (pH, pW) =
(0, 1)` — reachable, e.g. from a `(1, 3)` kernel in `"same"` mode — the
strip step `dX[..., 0:-0, 1:-1]` empties the height axis: on a padded
`2 × 4` gradient (unpadded input `2 × 2`) the returned tensor has
spatial shape `0 × 2`, not the claimed `2 × 2`. -/
theorem accumulate_dX_conv_mixed_zero_padding_empty :
    (accumulate_dX_conv (ι := ℕ) 2 4 2 2 1 1 1 3 oneDIp 0 1).rows = 0 ∧
    (accumulate_dX_conv (ι := ℕ) 2 4 2 2 1 1 1 3 oneDIp 0 1).cols = 2 := by
  constructor <;> rfl

/-! ## Convolution input preparation (`conv_utils.pad`,
`conv_utils.vectorize_ip_for_conv`, `conv_utils._prepare_ip_for_conv`) -/

/-- A 4-D tensor in the layer layout `(channels, height, width, batch)`
used by the convolution path. -/
structure Tensor4 where
  c : ℕ
  h : ℕ
  w : ℕ
  m : ℕ
  val : ℕ → ℕ → ℕ → ℕ → ℚ

/-- Embedding of `pad(X, pad_H, pad_W)`: `np.pad` with symmetric zero
padding on the two spatial axes only.  It returns a single array. -/
def pad (X : Tensor4) (pH pW : ℕ) : Tensor4 :=
  ⟨X.c, X.h + 2 * pH, X.w + 2 * pW, X.m, fun ch r co b =>
    if pH ≤ r ∧ r < pH + X.h ∧ pW ≤ co ∧ co < pW + X.w then
      X.val ch (r - pH) (co - pW) b
    else 0⟩

/-- A 3-D slab `X[i]` of a 4-D ndarray, as produced when the array is
iterated over its first axis. -/
structure Tensor3 where
  h : ℕ
  w : ℕ
  m : ℕ
  val : ℕ → ℕ → ℕ → ℚ

/-- The slab `X[i]`. -/
def slab (X : Tensor4) (i : ℕ) : Tensor3 :=
  ⟨X.h, X.w, X.m, fun r co b => X.val i r co b⟩

/-- Python iterable unpacking `a, b = X` of an ndarray `X`: iterates `X`
over its first axis and succeeds only when that axis has length exactly
2; otherwise it raises `ValueError`. -/
def iterUnpack2 (X : Tensor4) : Except String (Tensor3 × Tensor3) :=
  if X.c = 2 then .ok (slab X 0, slab X 1)
  else if X.c < 2 then .error "ValueError: not enough values to unpack (expected 2)"
  else .error "ValueError: too many values to unpack (expected 2)"

/-- Embedding of `vectorize_ip_for_conv(X, kernel_size, stride,
output_size)` with the default reshape `(-1, X.shape[-1])`: for window
`idx` (origin looked up in `slice_idx_generator`), the patch
`X[:, i:i+kH, j:j+kW]` flattened C-contiguously over
`(channels, kH, kW)`; `a` is the flattened patch index, `b` the batch
index. -/
def vectorize_ip_for_conv (X : Tensor4) (kH kW sH sW oH oW : ℕ) :
    ℕ → ℕ → ℕ → ℚ :=
  fun idx a b =>
    let org := (slice_idx_generator oH oW sH sW).getD idx (0, 0)
    X.val (a / (kH * kW)) (org.1 + (a % (kH * kW)) / kW)
      (org.2 + (a % (kH * kW)) % kW) b

/-- What `_prepare_ip_for_conv` hands back when it returns instead of
raising.  On the unpadded branch this is the correctly vectorized input.
On the padded branch the Python statement `X, _ = pad(X, pH, pW)`
unpacks the array returned by `pad` over its channel axis, so the branch
only gets past that line for a 2-channel input, and the code then
continues with the 3-D slab `pad(X)[0]` in place of the padded array;
the model stops at that slab, since every claim about this branch
concerns whether the function raises. -/
inductive PrepOut where
  | vec (v : ℕ → ℕ → ℕ → ℚ) : PrepOut
  | slab2 (t : Tensor3) : PrepOut

/-- Return value of `_prepare_ip_for_conv`: prepared input plus the
output spatial size `(oH, oW)`. -/
structure PrepResult where
  out : PrepOut
  oH : ℤ
  oW : ℤ

/-- Embedding of `_prepare_ip_for_conv(X, kernel_size, stride,
padding)`.  The output size comes from `compute_conv_output_dim`;
whenever `padding != (0, 0)` the source executes `X, _ = pad(X, pH,
pW)`, an iterable unpacking of the single array `pad` returns. -/
def _prepare_ip_for_conv (X : Tensor4) (kH kW sH sW pH pW : ℕ) :
    Except String PrepResult :=
  let oH := compute_conv_output_dim X.h kH pH sH
  let oW := compute_conv_output_dim X.w kW pW sW
  if (pH, pW) ≠ (0, 0) then
    match iterUnpack2 (pad X pH pW) with
    | .error e => .error e
    | .ok (X0, _) => .ok ⟨.slab2 X0, oH, oW⟩
  else
    .ok ⟨.vec (vectorize_ip_for_conv X kH kW sH sW oH.toNat oW.toNat), oH, oW⟩

/-- A single-channel 3×3 input with batch size 1, all entries 1. -/
def oneChanInput : Tensor4 := ⟨1, 3, 3, 1, fun _ _ _ _ => 1⟩

/-- C2 (evaluation at the failing input): the padded forward-preparation
path raises.  For a 1-channel 3×3 input with a 3×3 kernel, stride 1 and
`"same"` padding `(1, 1)`, `_prepare_ip_for_conv` hits
`X, _ = pad(X, pH, pW)` — unpacking the padded array over its channel
axis — and raises `ValueError` instead of completing. -/
theorem prepare_ip_for_conv_padding_raises :
    _prepare_ip_for_conv oneChanInput 3 3 1 1 1 1
      = Except.error "ValueError: not enough values to unpack (expected 2)" := by
  rfl

/-! ## Pooling core (`MaxPooling2D._get_pool_outputs`,
`AveragePooling2D._get_pool_outputs`, `MaxPooling2D.backprop_step`) -/

/-- Maximum of a list of rationals (`np.max` over a flattened window). -/
def listMax : List ℚ → ℚ
  | [] => 0
  | [x] => x
  | x :: y :: t => max x (listMax (y :: t))

/-- Embedding of `np.argmax` over the last axis: the index of the
*first* occurrence of the maximum in flattened scan order. -/
def argmaxIdx : List ℚ → ℕ
  | [] => 0
  | [_] => 0
  | x :: y :: t => if listMax (y :: t) ≤ x then 0 else argmaxIdx (y :: t) + 1

theorem argmaxIdx_spec (l : List ℚ) (hl : l ≠ []) :
    argmaxIdx l < l.length ∧
    l.getD (argmaxIdx l) 0 = listMax l ∧
    (∀ j, j < l.length → l.getD j 0 ≤ listMax l) ∧
    (∀ j, j < argmaxIdx l → l.getD j 0 < listMax l) := by
  induction l with
  | nil => exact absurd rfl hl
  | cons x xs ih =>
    cases xs with
    | nil =>
      refine ⟨by simp [argmaxIdx], by simp [argmaxIdx, listMax], ?_, ?_⟩
      · intro j hj
        have hj0 : j = 0 := by simpa using Nat.lt_one_iff.mp (by simpa using hj)
        subst hj0
        simp [listMax]
      · intro j hj
        exact absurd hj (by simp [argmaxIdx])
    | cons y t =>
      obtain ⟨ih1, ih2, ih3, ih4⟩ := ih (by simp)
      have hmax : listMax (x :: y :: t) = max x (listMax (y :: t)) := rfl
      by_cases hc : listMax (y :: t) ≤ x
      · have ha : argmaxIdx (x :: y :: t) = 0 := by
          simp [argmaxIdx, hc]
        refine ⟨by simp [ha], ?_, ?_, ?_⟩
        · rw [ha, hmax]
          simp [max_eq_left hc]
        · intro j hj
          cases j with
          | zero =>
            rw [hmax]
            simp [le_max_left x (listMax (y :: t))]
          | succ j =>
            rw [hmax]
            have hj' : j < (y :: t).length := by
              simpa using Nat.succ_lt_succ_iff.mp (by simpa using hj)
            calc (x :: y :: t).getD (j + 1) 0 = (y :: t).getD j 0 := by
                  simp [List.getD_cons_succ]
              _ ≤ listMax (y :: t) := ih3 j hj'
              _ ≤ max x (listMax (y :: t)) := le_max_right _ _
        · intro j hj
          rw [ha] at hj
          exact absurd hj (Nat.not_lt_zero j)
      · have hlt : x < listMax (y :: t) := not_le.mp hc
        have ha : argmaxIdx (x :: y :: t) = argmaxIdx (y :: t) + 1 := by
          simp [argmaxIdx, hc]
        have hM : listMax (x :: y :: t) = listMax (y :: t) := by
          rw [hmax]
          exact max_eq_right hlt.le
        refine ⟨?_, ?_, ?_, ?_⟩
        · rw [ha]
          simpa using Nat.succ_lt_succ ih1
        · rw [ha, hM]
          simpa [List.getD_cons_succ] using ih2
        · intro j hj
          rw [hM]
          cases j with
          | zero => simpa using hlt.le
          | succ j =>
            have hj' : j < (y :: t).length := by
              simpa using Nat.succ_lt_succ_iff.mp (by simpa using hj)
            simpa [List.getD_cons_succ] using ih3 j hj'
        · intro j hj
          rw [ha] at hj
          rw [hM]
          cases j with
          | zero => simpa using hlt
          | succ j =>
            have hj' : j < argmaxIdx (y :: t) := Nat.succ_lt_succ_iff.mp hj
            simpa [List.getD_cons_succ] using ih4 j hj'

/-- The input of `_get_pool_outputs` after `_pool`'s vectorization and
axis move: a tensor of shape `(batch, num_windows, channels, p_area)`;
the window axis is last. -/
structure PoolIp where
  m : ℕ
  nW : ℕ
  C : ℕ
  pArea : ℕ
  val : ℕ → ℕ → ℕ → ℕ → ℚ

/-- The flattened window slice `ip[b, w, ch, :]`. -/
def windowList (ip : PoolIp) (b w ch : ℕ) : List ℚ :=
  (List.range ip.pArea).map fun t => ip.val b w ch t

theorem windowList_length (ip : PoolIp) (b w ch : ℕ) :
    (windowList ip b w ch).length = ip.pArea := by
  simp [windowList]

theorem windowList_getD (ip : PoolIp) (b w ch j : ℕ) (hj : j < ip.pArea) :
    (windowList ip b w ch).getD j 0 = ip.val b w ch j := by
  unfold windowList
  rw [List.getD_eq_getElem?_getD, List.getElem?_map, List.getElem?_range hj]
  rfl

/-- Embedding of `MaxPooling2D._get_pool_outputs(ip)`: for every
`(batch, window, channel)` slice, the maximum over the window axis
(gathered at the argmax) and the boolean mask that is `true` exactly at
the first flattened argmax position (`np.argmax` tie-break). -/
def maxpool_get_pool_outputs (ip : PoolIp) :
    (ℕ → ℕ → ℕ → ℚ) × (ℕ → ℕ → ℕ → ℕ → Bool) :=
  (fun b w ch => listMax (windowList ip b w ch),
   fun b w ch t => decide (t = argmaxIdx (windowList ip b w ch)))

/-- The gradient-routing step `dIp = self._dX_share * dA[..., None]` of
`MaxPooling2D.backprop_step`: the incoming per-window output gradient
`dA[b, w, ch]` multiplied by the recorded boolean mask, before the
scatter-accumulation. -/
def maxpool_dIp (ip : PoolIp) (dA : ℕ → ℕ → ℕ → ℚ) : ℕ → ℕ → ℕ → ℕ → ℚ :=
  fun b w ch t =>
    (if (maxpool_get_pool_outputs ip).2 b w ch t then 1 else 0) * dA b w ch

/-- C6: for every window, channel and batch element, max pooling's
backward routing places the incoming output gradient only at the
recorded argmax position (every other window position receives zero
before scatter-accumulation), and the recorded position is the first in
flattened scan order among tied maxima: it is in bounds, carries a value
no smaller than every window entry, and strictly exceeds every entry at
an earlier scan position. -/
theorem maxpool_backprop_routes_to_first_argmax (ip : PoolIp)
    (dA : ℕ → ℕ → ℕ → ℚ) (b w ch t : ℕ) (hp : 0 < ip.pArea)
    (ht : t < ip.pArea) :
    (maxpool_dIp ip dA b w ch t
        = if t = argmaxIdx (windowList ip b w ch) then dA b w ch else 0) ∧
    argmaxIdx (windowList ip b w ch) < ip.pArea ∧
    (∀ j, j < ip.pArea →
      ip.val b w ch j ≤ ip.val b w ch (argmaxIdx (windowList ip b w ch))) ∧
    (∀ j, j < argmaxIdx (windowList ip b w ch) →
      ip.val b w ch j < ip.val b w ch (argmaxIdx (windowList ip b w ch))) := by
  have hl : windowList ip b w ch ≠ [] := by
    have := windowList_length ip b w ch
    intro hnil
    rw [hnil] at this
    simp at this
    omega
  obtain ⟨h1, h2, h3, h4⟩ := argmaxIdx_spec (windowList ip b w ch) hl
  rw [windowList_length] at h1 h3
  have hval : ip.val b w ch (argmaxIdx (windowList ip b w ch))
      = listMax (windowList ip b w ch) := by
    rw [← windowList_getD ip b w ch _ h1, h2]
  refine ⟨?_, h1, ?_, ?_⟩
  · by_cases he : t = argmaxIdx (windowList ip b w ch) <;>
      simp [maxpool_dIp, maxpool_get_pool_outputs, he]
  · intro j hj
    rw [hval, ← windowList_getD ip b w ch j hj]
    exact h3 j hj
  · intro j hj
    have hjA : j < ip.pArea := lt_trans hj h1
    rw [hval, ← windowList_getD ip b w ch j hjA]
    exact h4 j hj

/-- Concrete pooling input for the C6 witness: one window of area 4 with
values `[3, 5, 5, 3]` — positions 1 and 2 tie for the maximum. -/
def tieClip : PoolIp := ⟨1, 1, 1, 4, fun _ _ _ t => if t = 1 ∨ t = 2 then 5 else 3⟩

/-- Incoming output gradient for the C6 witness. -/
def tieDA : ℕ → ℕ → ℕ → ℚ := fun _ _ _ => 7

/-- Witness for C6, at the tied window position `t = 2` of `tieClip`. -/
theorem maxpool_backprop_routes_to_first_argmax_witness :
    0 < tieClip.pArea ∧ 2 < tieClip.pArea ∧
    ((maxpool_dIp tieClip tieDA 0 0 0 2
        = if 2 = argmaxIdx (windowList tieClip 0 0 0) then tieDA 0 0 0 else 0) ∧
     argmaxIdx (windowList tieClip 0 0 0) < tieClip.pArea ∧
     (∀ j, j < tieClip.pArea →
       tieClip.val 0 0 0 j
         ≤ tieClip.val 0 0 0 (argmaxIdx (windowList tieClip 0 0 0))) ∧
     (∀ j, j < argmaxIdx (windowList tieClip 0 0 0) →
       tieClip.val 0 0 0 j
         < tieClip.val 0 0 0 (argmaxIdx (windowList tieClip 0 0 0)))) :=
  ⟨by decide, by decide,
   maxpool_backprop_routes_to_first_argmax tieClip tieDA 0 0 0 2
     (by decide) (by decide)⟩

/-- Embedding of `AveragePooling2D._get_pool_outputs(ip)`: the
per-window means, and the distribution tensor
`np.ones((1, 1, 1, p_area)) / p_area` — the constant `1 / p_area`,
computed from the input's shape alone. -/
def avgpool_get_pool_outputs (ip : PoolIp) : (ℕ → ℕ → ℕ → ℚ) × ℚ :=
  (fun b w ch => (windowList ip b w ch).sum / (ip.pArea : ℚ),
   1 / (ip.pArea : ℚ))

/-- The routing step `dIp = self._dX_share * dA[..., None]` of the
inherited `backprop_step` for average pooling: the distribution constant
broadcast over every window position, times the incoming gradient. -/
def avgpool_dIp (ip : PoolIp) (dA : ℕ → ℕ → ℕ → ℚ) : ℕ → ℕ → ℕ → ℕ → ℚ :=
  fun b w ch _t => (avgpool_get_pool_outputs ip).2 * dA b w ch

/-- The full backward step of `AveragePooling2D`: route the incoming
gradient through the distribution tensor, then scatter-accumulate via
`accumulate_dX_conv` with the caller's reshape `(-1, C, pool_H, pool_W)`
(the window axis `t` unflattened to `(u, v) = (t / kW, t % kW)`, leading
index `(batch, channel)`). -/
def avgpool_backprop_step (ip : PoolIp) (dA : ℕ → ℕ → ℕ → ℚ)
    (rows cols oH oW sH sW kH kW pH pW : ℕ) : SpatialT (ℕ × ℕ) :=
  accumulate_dX_conv rows cols oH oW sH sW kH kW
    (fun idx lc u v => avgpool_dIp ip dA lc.1 idx lc.2 (u * kW + v)) pH pW

/-- C10: average pooling's backward pass is independent of the values of
the forward-pass input — for two forward inputs of identical shape
(possibly different entries) and the same incoming output gradient, the
computed input gradients coincide, because the distribution tensor is
the constant `1 / window_area` and never reads the input's entries. -/
theorem avgpool_backprop_input_independent (ip1 ip2 : PoolIp)
    (hm : ip1.m = ip2.m) (hw : ip1.nW = ip2.nW) (hc : ip1.C = ip2.C)
    (hp : ip1.pArea = ip2.pArea) (dA : ℕ → ℕ → ℕ → ℚ)
    (rows cols oH oW sH sW kH kW pH pW : ℕ) :
    avgpool_backprop_step ip1 dA rows cols oH oW sH sW kH kW pH pW
      = avgpool_backprop_step ip2 dA rows cols oH oW sH sW kH kW pH pW := by
  unfold avgpool_backprop_step avgpool_dIp avgpool_get_pool_outputs
  simp only [hp]

/-- First C10 witness input: one 2×2 window, entries `0, 1, 2, 3`. -/
def rampIp : PoolIp := ⟨1, 1, 1, 4, fun _ _ _ t => (t : ℚ)⟩

/-- Second C10 witness input: same shape as `rampIp`, all entries 9. -/
def flatIp : PoolIp := ⟨1, 1, 1, 4, fun _ _ _ _ => 9⟩

/-- Incoming output gradient for the C10 witness. -/
def avgDA : ℕ → ℕ → ℕ → ℚ := fun _ _ _ => 2

/-- Witness for C10: `rampIp` and `flatIp` share a shape but differ in
every entry, yet their backward gradients agree. -/
theorem avgpool_backprop_input_independent_witness :
    rampIp.m = flatIp.m ∧ rampIp.nW = flatIp.nW ∧ rampIp.C = flatIp.C ∧
    rampIp.pArea = flatIp.pArea ∧
    avgpool_backprop_step rampIp avgDA 2 2 1 1 1 1 2 2 0 0
      = avgpool_backprop_step flatIp avgDA 2 2 1 1 1 1 2 2 0 0 :=
  ⟨rfl, rfl, rfl, rfl,
   avgpool_backprop_input_independent rampIp flatIp rfl rfl rfl rfl avgDA
     2 2 1 1 1 1 2 2 0 0⟩

/-! ## Concatenation layer (`Concatenate`) -/

/-- An input tensor of the concatenation layer viewed along the
concatenation axis: `offShape` is its shape with the concatenation axis
removed (the tuple `_get_axis_excluded_shapes` builds), `slices` the
sub-arrays indexed along that axis, each flattened to a list. -/
structure AxTensor where
  offShape : List ℕ
  slices : List (List ℚ)

/-- The validation failure of `Concatenate._validate_same_shape`: the
`ValueError` (the spec's ShapeMismatch) carries the expected
axis-excluded shape its message names. -/
inductive ConcatError where
  | shapeMismatch (expected : List ℕ) : ConcatError

/-- Embedding of `Concatenate._validate_same_shape`: takes the first
input's axis-excluded shape (`next(shapes)` — the layer always has at
least one input) and raises, naming that shape, iff any remaining
input's axis-excluded shape differs from it. -/
def _validate_same_shape (first : AxTensor) (rest : List AxTensor) :
    Except ConcatError Unit :=
  if (rest.map AxTensor.offShape).any (fun s => s ≠ first.offShape) then
    .error (.shapeMismatch first.offShape)
  else
    .ok ()

/-- Embedding of `Concatenate.forward_step`: re-validates the shapes
first, before any computation; on failure the retained state
`self.concatenated` (second component) is left unchanged; on success
`np.concatenate` stacks the inputs' slices in input order and the result
is retained. -/
def Concatenate.forward_step (prev : Option (List (List ℚ)))
    (first : AxTensor) (rest : List AxTensor) :
    Except ConcatError (List (List ℚ)) × Option (List (List ℚ)) :=
  match _validate_same_shape first rest with
  | .error e => (.error e, prev)
  | .ok _ =>
      let conc := (first :: rest).flatMap AxTensor.slices
      (.ok conc, some conc)

/-- Helper for `_split_indices`: the running cumulative sums. -/
def splitIndicesAux : ℕ → List AxTensor → List ℕ
  | _, [] => []
  | acc, t :: ts =>
      (acc + t.slices.length) :: splitIndicesAux (acc + t.slices.length) ts

/-- Embedding of `Concatenate._split_indices`: the cumulative boundary
offsets along the concatenation axis of every input except the last
(`shapes[0][axis]`, then a running sum over `shapes[1:-1]`). -/
def _split_indices (first : AxTensor) (rest : List AxTensor) : List ℕ :=
  first.slices.length :: splitIndicesAux first.slices.length rest.dropLast

/-- Embedding of `np.split(grad, indices_or_sections=indices, axis)` at
sorted absolute indices, starting from offset `off`: the sections
`grad[off:i1], grad[i1:i2], ..., grad[ik:]`. -/
def npSplit (grad : List (List ℚ)) : List ℕ → ℕ → List (List (List ℚ))
  | [], off => [grad.drop off]
  | i :: is, off => ((grad.drop off).take (i - off)) :: npSplit grad is i

/-- Embedding of `Concatenate.backprop_inputs`: split the incoming
gradient at the stored cumulative boundary indices, returning one
gradient per input, in input order. -/
def Concatenate.backprop_inputs (first : AxTensor) (rest : List AxTensor)
    (grad : List (List ℚ)) : List (List (List ℚ)) :=
  npSplit grad (_split_indices first rest) 0

/-- C7: for every pair of tensors `A`, `B` that agree on every axis
except the concatenation axis, the forward step concatenates their
slices in input order, and the backward operation applied to that
forward output as the gradient splits it back into exactly `(A, B)` —
the round trip is the identity on the input pair. -/
theorem concat_roundtrip (prev : Option (List (List ℚ))) (A B : AxTensor)
    (h : A.offShape = B.offShape) :
    (Concatenate.forward_step prev A [B]).1 = .ok (A.slices ++ B.slices) ∧
    Concatenate.backprop_inputs A [B] (A.slices ++ B.slices)
      = [A.slices, B.slices] := by
  constructor
  · have hval : _validate_same_shape A [B] = .ok () := by
      unfold _validate_same_shape
      rw [if_neg]
      simp [h]
    unfold Concatenate.forward_step
    rw [hval]
    simp
  · unfold Concatenate.backprop_inputs _split_indices
    simp only [List.dropLast_single, splitIndicesAux]
    unfold npSplit npSplit
    simp [List.take_left, List.drop_left]

/-- First C7 witness input: off-axis shape `[2]`, two slices. -/
def catA : AxTensor := ⟨[2], [[1, 2], [3, 4]]⟩

/-- Second C7 witness input: off-axis shape `[2]`, one slice. -/
def catB : AxTensor := ⟨[2], [[5, 6]]⟩

/-- Witness for C7 on `catA`, `catB`. -/
theorem concat_roundtrip_witness :
    catA.offShape = catB.offShape ∧
    ((Concatenate.forward_step none catA [catB]).1
        = .ok (catA.slices ++ catB.slices) ∧
      Concatenate.backprop_inputs catA [catB] (catA.slices ++ catB.slices)
        = [catA.slices, catB.slices]) :=
  ⟨rfl, concat_roundtrip none catA catB rfl⟩

/-- C8: on every forward call, if some input disagrees with the first on
the axis-excluded shape, the ShapeMismatch failure naming the expected
shape is raised before any computation and the retained output state is
left unchanged; if all axis-excluded shapes agree, no error is raised
and the concatenation is computed and retained. -/
theorem concat_forward_validates_shapes (prev : Option (List (List ℚ)))
    (first : AxTensor) (rest : List AxTensor) :
    ((∃ t ∈ rest, t.offShape ≠ first.offShape) →
      Concatenate.forward_step prev first rest
        = (.error (.shapeMismatch first.offShape), prev)) ∧
    ((∀ t ∈ rest, t.offShape = first.offShape) →
      Concatenate.forward_step prev first rest
        = (.ok ((first :: rest).flatMap AxTensor.slices),
           some ((first :: rest).flatMap AxTensor.slices))) := by
  constructor
  · intro hex
    have hany : ((rest.map AxTensor.offShape).any
        (fun s => s ≠ first.offShape)) = true := by
      rw [List.any_eq_true]
      obtain ⟨t, ht, hne⟩ := hex
      exact ⟨t.offShape, List.mem_map_of_mem _ ht, by simpa using hne⟩
    have hval : _validate_same_shape first rest
        = .error (.shapeMismatch first.offShape) := by
      unfold _validate_same_shape
      rw [if_pos hany]
    unfold Concatenate.forward_step
    rw [hval]
  · intro hall
    have hany : ((rest.map AxTensor.offShape).any
        (fun s => s ≠ first.offShape)) = false := by
      rw [List.any_eq_false]
      intro s hs
      obtain ⟨t, ht, rfl⟩ := List.mem_map.mp hs
      simpa using hall t ht
    have hval : _validate_same_shape first rest = .ok () := by
      unfold _validate_same_shape
      rw [if_neg (by rw [hany]; exact Bool.false_ne_true)]
    unfold Concatenate.forward_step
    rw [hval]

/-- A third input for the C8 witness whose off-axis shape `[3]`
disagrees with `catA`'s `[2]`. -/
def catBad : AxTensor := ⟨[3], [[7, 8, 9]]⟩

/-- Witness for C8: the mismatching pair raises and preserves the
retained state; the matching pair concatenates. -/
theorem concat_forward_validates_shapes_witness :
    (Concatenate.forward_step (some [[0]]) catA [catBad]
        = (.error (.shapeMismatch catA.offShape), some [[0]])) ∧
    (Concatenate.forward_step none catA [catB]
        = (.ok ((catA :: [catB]).flatMap AxTensor.slices),
           some ((catA :: [catB]).flatMap AxTensor.slices))) :=
  ⟨(concat_forward_validates_shapes (some [[0]]) catA [catBad]).1
      (by exact ⟨catBad, by simp, by decide⟩),
   (concat_forward_validates_shapes none catA [catB]).2
      (by intro t ht; simp at ht; rw [ht]; decide)⟩

end DNN
